import Mathlib

/-!
Shallow embedding of the casbin `CachedEnforcer` decision-cache layer
(`cached_enforcer.go` and `persist/cache.go`).

Request parameters in Go are `...interface{}`; only string-typed parameters
are cacheable.  We model a dynamic parameter as either a string or an opaque
non-string value tagged by a natural number.  Go `error` values are modelled
by `Err`: the `ErrNoSuchKey` sentinel and opaque other errors.  The pluggable
`persist.Cache` interface becomes a record of state-transformer operations
over an abstract store state `σ`; the wrapped `Enforcer` becomes a record of
state transformers over an abstract engine state `ε`.  Each public operation
of `CachedEnforcer` is translated line by line; outputs additionally record
how many times the underlying engine method was invoked (`engineCalls`) and
the sequence of lock / cache-store events performed (`trace`), mirroring the
`sync.RWMutex` calls present in the source.
-/

set_option autoImplicit false

namespace CasbinCache

/-- A dynamic (`interface{}`) request parameter: a string, or an opaque
non-string value (structs, pointers, the nil interface, ...). -/
inductive Param where
  | str (s : String)
  | other (n : Nat)
  deriving DecidableEq, Repr

/-- `true` exactly when the parameter is string-typed. -/
def Param.isStr : Param → Bool
  | .str _ => true
  | .other _ => false

/-- Go `error` values of the cache layer: the `ErrNoSuchKey` sentinel
(`var ErrNoSuchKey = errors.New(...)`) or any other error (opaque). -/
inductive Err where
  | noSuchKey
  | other (n : Nat)
  deriving DecidableEq, Repr

/-- Lock and cache-store events, in the order the code performs them. -/
inductive Event where
  | rlock
  | runlock
  | wlock
  | wunlock
  | getE
  | setE
  | delE
  | clrE
  deriving DecidableEq, Repr

/-- The `persist.Cache` interface: `Set(key, value, extra...)`,
`Get(key) (bool, error)`, `Delete(key) error`, `Clear() error`, as state
transformers over an abstract store state `σ`.  `set` receives the survival
hint (the single `extra` argument the orchestrator passes). -/
structure CacheOps (σ : Type) where
  set : σ → String → Bool → Nat → Option Err × σ
  get : σ → String → Bool × Option Err
  del : σ → String → Option Err × σ
  clr : σ → Option Err × σ

/-- The wrapped `Enforcer`'s operations consumed by this layer, as state
transformers over an abstract engine state `ε`. -/
structure Engine (ε : Type) where
  enforce : ε → List Param → (Bool × Option Err) × ε
  loadPolicy : ε → Option Err × ε
  removePolicy : ε → List Param → (Bool × Option Err) × ε
  removePolicies : ε → List (List String) → (Bool × Option Err) × ε

/-- The `CachedEnforcer` struct: `expireTime uint`, `cache persist.Cache`,
`enableCache int32` (written `0`/`1`), and the embedded `*Enforcer`
(its state `ε`).  The `locker *sync.RWMutex` is reflected in the event
traces of the operations. -/
structure CachedEnforcer (σ ε : Type) where
  expireTime : Nat
  cache : σ
  enableCache : Nat
  eng : ε

/-- Loop body of `getKey`: appends `val ++ "$$"` for each string parameter
into the `strings.Builder`, or returns `("", false)` on the first non-string
parameter. -/
def getKeyAux : List Param → String → String × Bool
  | [], key => (key, true)
  | Param.str val :: rest, key => getKeyAux rest (key ++ val ++ "$$")
  | Param.other _ :: _, _ => ("", false)

/-- `func (e *CachedEnforcer) getKey(params ...interface{}) (string, bool)`. -/
def getKey (params : List Param) : String × Bool :=
  getKeyAux params ""

/-- `EnableCache`: writes `1` or `0` into the `enableCache` flag and touches
nothing else. -/
def EnableCache {σ ε : Type} (e : CachedEnforcer σ ε) (enableCache : Bool) :
    CachedEnforcer σ ε :=
  { e with enableCache := if enableCache then 1 else 0 }

/-- `getCachedResult`: takes the read lock, performs the cache `Get`,
releases the read lock. -/
def getCachedResult {σ : Type} (C : CacheOps σ) (cache : σ) (key : String) :
    (Bool × Option Err) × List Event :=
  (C.get cache key, [Event.rlock, Event.getE, Event.runlock])

/-- `setCachedResult`: takes the write lock, performs the cache `Set` with
the given extra (survival) argument, releases the write lock. -/
def setCachedResult {σ : Type} (C : CacheOps σ) (cache : σ) (key : String)
    (res : Bool) (extra : Nat) : (Option Err × σ) × List Event :=
  (C.set cache key res extra, [Event.wlock, Event.setE, Event.wunlock])

/-- Output of `Enforce`: the decision, the error, the resulting enforcer
state, the number of underlying `Enforcer.Enforce` invocations, and the
lock / store event trace. -/
structure EnforceOut (σ ε : Type) where
  res : Bool
  err : Option Err
  st : CachedEnforcer σ ε
  engineCalls : Nat
  trace : List Event


/-- `func (e *CachedEnforcer) Enforce(rvals ...interface{}) (bool, error)`. -/
def Enforce {σ ε : Type} (C : CacheOps σ) (E : Engine ε)
    (e : CachedEnforcer σ ε) (rvals : List Param) : EnforceOut σ ε :=
  if e.enableCache = 0 then
    let ((res, err), eng') := E.enforce e.eng rvals
    ⟨res, err, { e with eng := eng' }, 1, []⟩
  else
    match getKey rvals with
    | (_, false) =>
      let ((res, err), eng') := E.enforce e.eng rvals
      ⟨res, err, { e with eng := eng' }, 1, []⟩
    | (key, true) =>
      let ((gres, gerr), tr1) := getCachedResult C e.cache key
      match gerr with
      | none => ⟨gres, none, e, 0, tr1⟩
      | some ge =>
        if ge ≠ Err.noSuchKey then
          ⟨gres, some ge, e, 0, tr1⟩
        else
          let ((res, eerr), eng') := E.enforce e.eng rvals
          match eerr with
          | some ee => ⟨false, some ee, { e with eng := eng' }, 1, tr1⟩
          | none =>
            let ((serr, cache'), tr2) :=
              setCachedResult C e.cache key res e.expireTime
            ⟨res, serr, { e with cache := cache', eng := eng' }, 1, tr1 ++ tr2⟩

/-- Output of `LoadPolicy`. -/
structure LoadOut (σ ε : Type) where
  err : Option Err
  st : CachedEnforcer σ ε
  engineCalls : Nat
  trace : List Event


/-- `func (e *CachedEnforcer) LoadPolicy() error`.  Note the source calls
`e.cache.Clear()` directly, not through the locker. -/
def LoadPolicy {σ ε : Type} (C : CacheOps σ) (E : Engine ε)
    (e : CachedEnforcer σ ε) : LoadOut σ ε :=
  if e.enableCache ≠ 0 then
    let (cerr, cache') := C.clr e.cache
    match cerr with
    | some ce => ⟨some ce, { e with cache := cache' }, 0, [Event.clrE]⟩
    | none =>
      let (lerr, eng') := E.loadPolicy e.eng
      ⟨lerr, { e with cache := cache', eng := eng' }, 1, [Event.clrE]⟩
  else
    let (lerr, eng') := E.loadPolicy e.eng
    ⟨lerr, { e with eng := eng' }, 1, []⟩

/-- Output of `RemovePolicy` / `RemovePolicies`. -/
structure MutOut (σ ε : Type) where
  res : Bool
  err : Option Err
  st : CachedEnforcer σ ε
  engineCalls : Nat
  trace : List Event


/-- `func (e *CachedEnforcer) RemovePolicy(params ...interface{}) (bool, error)`.
The source calls `e.cache.Delete(key)` directly, not through the locker. -/
def RemovePolicy {σ ε : Type} (C : CacheOps σ) (E : Engine ε)
    (e : CachedEnforcer σ ε) (params : List Param) : MutOut σ ε :=
  if e.enableCache ≠ 0 then
    match getKey params with
    | (key, true) =>
      let (derr, cache') := C.del e.cache key
      match derr with
      | some de =>
        if de ≠ Err.noSuchKey then
          ⟨false, some de, { e with cache := cache' }, 0, [Event.delE]⟩
        else
          let ((res, err), eng') := E.removePolicy e.eng params
          ⟨res, err, { e with cache := cache', eng := eng' }, 1, [Event.delE]⟩
      | none =>
        let ((res, err), eng') := E.removePolicy e.eng params
        ⟨res, err, { e with cache := cache', eng := eng' }, 1, [Event.delE]⟩
    | (_, false) =>
      let ((res, err), eng') := E.removePolicy e.eng params
      ⟨res, err, { e with eng := eng' }, 1, []⟩
  else
    let ((res, err), eng') := E.removePolicy e.eng params
    ⟨res, err, { e with eng := eng' }, 1, []⟩

/-- The inner loop `for i, param := range rule { irule[i] = param }` of
`RemovePolicies`: positions `0 .. len(rule)-1` of the reused `irule` slice
are overwritten, later positions keep their previous contents, and an index
beyond `len(irule)` panics (`none`). -/
def overwrite : List Param → List String → Option (List Param)
  | irule, [] => some irule
  | _ :: irest, p :: prest => (overwrite irest prest).map fun l => Param.str p :: l
  | [], _ :: _ => none

/-- Result of the cache-purging loop of `RemovePolicies`: a slice-index
panic, an early `return false, err`, or normal completion. -/
inductive LoopRes (σ : Type) where
  | panic
  | earlyErr (er : Err) (cache : σ) (trace : List Event)
  | done (irule : List Param) (cache : σ) (trace : List Event)

/-- Prepend the `Delete` event of the current iteration. -/
def LoopRes.addDel {σ : Type} : LoopRes σ → LoopRes σ
  | .panic => .panic
  | .earlyErr er c t => .earlyErr er c (Event.delE :: t)
  | .done ir c t => .done ir c (Event.delE :: t)

/-- The `for _, rule := range rules` loop of `RemovePolicies`: write the
rule into the shared `irule` buffer, build the key (the `ok` flag is
discarded in the source), `Delete` it, and abort on any error other than
`ErrNoSuchKey`. -/
def removePoliciesLoop {σ : Type} (C : CacheOps σ) :
    List (List String) → List Param → σ → LoopRes σ
  | [], irule, cache => .done irule cache []
  | rule :: rest, irule, cache =>
    match overwrite irule rule with
    | none => .panic
    | some irule' =>
      let (key, _) := getKey irule'
      let (derr, cache') := C.del cache key
      match derr with
      | some de =>
        if de ≠ Err.noSuchKey then .earlyErr de cache' [Event.delE]
        else (removePoliciesLoop C rest irule' cache').addDel
      | none => (removePoliciesLoop C rest irule' cache').addDel

/-- `func (e *CachedEnforcer) RemovePolicies(rules [][]string) (bool, error)`.
`irule := make([]interface{}, len(rules[0]))` is a buffer of nil interfaces
(non-strings), reused across iterations.  `none` models the slice-index
panic when a rule is longer than `rules[0]`. -/
def RemovePolicies {σ ε : Type} (C : CacheOps σ) (E : Engine ε)
    (e : CachedEnforcer σ ε) (rules : List (List String)) :
    Option (MutOut σ ε) :=
  if rules.length ≠ 0 ∧ e.enableCache ≠ 0 then
    let irule0 : List Param := List.replicate (rules.headD []).length (Param.other 0)
    match removePoliciesLoop C rules irule0 e.cache with
    | .panic => none
    | .earlyErr er cache' tr => some ⟨false, some er, { e with cache := cache' }, 0, tr⟩
    | .done _ cache' tr =>
      let ((res, err), eng') := E.removePolicies e.eng rules
      some ⟨res, err, { e with cache := cache', eng := eng' }, 1, tr⟩
  else
    let ((res, err), eng') := E.removePolicies e.eng rules
    some ⟨res, err, { e with eng := eng' }, 1, []⟩

/-- `SetExpireTime`. -/
def SetExpireTime {σ ε : Type} (e : CachedEnforcer σ ε) (expireTime : Nat) :
    CachedEnforcer σ ε :=
  { e with expireTime := expireTime }

/-- `InvalidateCache`: takes the write lock, clears the cache, releases
the lock. -/
def InvalidateCache {σ ε : Type} (C : CacheOps σ) (e : CachedEnforcer σ ε) :
    (Option Err × CachedEnforcer σ ε) × List Event :=
  let (cerr, cache') := C.clr e.cache
  ((cerr, { e with cache := cache' }), [Event.wlock, Event.clrE, Event.wunlock])

/-- `type DefaultCache map[string]bool`, modelled extensionally as the
lookup function of the map. -/
abbrev DefaultCache : Type := String → Option Bool

/-- The empty map (`make(map[string]bool)`). -/
def DefaultCache.empty : DefaultCache := fun _ => none

/-- `func (c *DefaultCache) Set(key string, value bool, extra ...interface{}) error`:
`(*c)[key] = value; return nil` — the survival hint is ignored. -/
def dcSet (c : DefaultCache) (key : String) (value : Bool) (_extra : Nat) :
    Option Err × DefaultCache :=
  (none, fun k => if k = key then some value else c k)

/-- `func (c *DefaultCache) Get(key string) (bool, error)`. -/
def dcGet (c : DefaultCache) (key : String) : Bool × Option Err :=
  match c key with
  | none => (false, some Err.noSuchKey)
  | some res => (res, none)

/-- `func (c *DefaultCache) Delete(key string) error`. -/
def dcDelete (c : DefaultCache) (key : String) : Option Err × DefaultCache :=
  match c key with
  | none => (some Err.noSuchKey, c)
  | some _ => (none, fun k => if k = key then none else c k)

/-- `func (c *DefaultCache) Clear() error`: `*c = make(DefaultCache)`. -/
def dcClear (_c : DefaultCache) : Option Err × DefaultCache :=
  (none, fun _ => none)

/-- The `persist.Cache` instance given by `DefaultCache`. -/
def dcOps : CacheOps DefaultCache where
  set := dcSet
  get := dcGet
  del := dcDelete
  clr := dcClear

/-- The canonical key of an all-string parameter list: every parameter,
the last one included, is suffixed with the delimiter `"$$"`. -/
def keyOf : List String → String
  | [] => ""
  | s :: rest => s ++ "$$" ++ keyOf rest

/-- Test fixture: a stub engine over a call counter that always answers
`true` with no error. -/
def testEngine : Engine Nat where
  enforce := fun n _ => ((true, none), n + 1)
  loadPolicy := fun n => (none, n + 1)
  removePolicy := fun n _ => ((true, none), n + 1)
  removePolicies := fun n _ => ((true, none), n + 1)

/-- Test fixture: a store whose every operation fails with a distinct
non-`NotFound` error. -/
def failOps : CacheOps Unit where
  set := fun s _ _ _ => (some (Err.other 1), s)
  get := fun _ _ => (false, some (Err.other 2))
  del := fun s _ => (some (Err.other 3), s)
  clr := fun s => (some (Err.other 4), s)

/-- Test fixture: a cache-enabled enforcer over the default store, empty
cache, zero expire time, engine counter `0`. -/
def e0 : CachedEnforcer DefaultCache Nat := ⟨0, DefaultCache.empty, 1, 0⟩

/-- Test fixture: a cache-enabled enforcer over the always-failing store. -/
def eU : CachedEnforcer Unit Nat := ⟨0, (), 1, 0⟩

theorem getKeyAux_strings (ss : List String) (acc : String) :
    getKeyAux (ss.map Param.str) acc = (acc ++ keyOf ss, true) := by
  induction ss generalizing acc with
  | nil => simp [getKeyAux, keyOf]
  | cons s rest ih =>
    simp only [List.map_cons, getKeyAux, keyOf, ih, String.append_assoc]

theorem getKey_strings (ss : List String) :
    getKey (ss.map Param.str) = (keyOf ss, true) := by
  have h := getKeyAux_strings ss ""
  rcases ss with _ | ⟨s, rest⟩
  · simp [getKey, getKeyAux, keyOf]
  · simpa [getKey] using h

/-- Every all-string parameter list is the image of its string list. -/
theorem exists_strings_of_all_isStr (ps : List Param)
    (h : ∀ p ∈ ps, p.isStr = true) : ∃ ss : List String, ps = ss.map Param.str := by
  induction ps with
  | nil => exact ⟨[], rfl⟩
  | cons q rest ih =>
    obtain ⟨ss, hss⟩ := ih fun p hp => h p (List.mem_cons_of_mem q hp)
    cases q with
    | str s => exact ⟨s :: ss, by simp [hss]⟩
    | other n =>
      have := h (Param.other n) (List.mem_cons_self _ _)
      simp [Param.isStr] at this

theorem getKeyAux_not_cacheable (ps : List Param) :
    (∃ p ∈ ps, p.isStr = false) → ∀ acc, getKeyAux ps acc = ("", false) := by
  induction ps with
  | nil => rintro ⟨p, hp, -⟩; exact absurd hp (List.not_mem_nil p)
  | cons q rest ih =>
    rintro ⟨p, hp, hps⟩ acc
    cases q with
    | str s =>
      rcases List.mem_cons.mp hp with h1 | h2
      · rw [h1] at hps; simp [Param.isStr] at hps
      · exact ih ⟨p, h2, hps⟩ _
    | other n => rfl

theorem getKey_not_cacheable (ps : List Param)
    (h : ∃ p ∈ ps, p.isStr = false) : getKey ps = ("", false) :=
  getKeyAux_not_cacheable ps h ""

/-- C7: `EnableCache(b)` writes only the enable flag: it is exactly the
record update of `enableCache` to `1`/`0`, and toggling `false` then `true`
leaves the cache contents, the expire time and the engine state untouched. -/
theorem C7_enableCache_only_flag {σ ε : Type} (e : CachedEnforcer σ ε) (b : Bool) :
    EnableCache e b = { e with enableCache := if b then 1 else 0 } ∧
    EnableCache (EnableCache e false) true = { e with enableCache := 1 } :=
  ⟨rfl, rfl⟩

/-- C8: the default in-memory store satisfies the `Cache` contract:
`Set` always succeeds, overwrites unconditionally and ignores the survival
hint, after which `Get` returns the stored decision; `Get`/`Delete` on an
absent key fail with `ErrNoSuchKey`; `Clear` succeeds and empties the store
so every subsequent `Get` fails with `ErrNoSuchKey`. -/
theorem C8_defaultCache_contract (c : DefaultCache) (k : String) (v : Bool)
    (hint : Nat) :
    (dcSet c k v hint).1 = none ∧
    dcGet ((dcSet c k v hint).2) k = (v, none) ∧
    dcSet c k v hint = dcSet c k v 0 ∧
    (c k = none → dcGet c k = (false, some Err.noSuchKey)) ∧
    (c k = none → dcDelete c k = (some Err.noSuchKey, c)) ∧
    (dcClear c).1 = none ∧
    (∀ k', dcGet ((dcClear c).2) k' = (false, some Err.noSuchKey)) := by
  refine ⟨rfl, ?_, rfl, ?_, ?_, rfl, fun k' => rfl⟩
  · simp [dcSet, dcGet]
  · intro h; simp [dcGet, h]
  · intro h; simp [dcDelete, h]

theorem C8_witness :
    DefaultCache.empty "k" = none ∧
    dcGet ((dcSet DefaultCache.empty "k" true 5).2) "k" = (true, none) ∧
    dcGet DefaultCache.empty "k" = (false, some Err.noSuchKey) ∧
    dcDelete DefaultCache.empty "k" = (some Err.noSuchKey, DefaultCache.empty) ∧
    dcGet ((dcClear DefaultCache.empty).2) "q" = (false, some Err.noSuchKey) :=
  ⟨rfl,
   (C8_defaultCache_contract DefaultCache.empty "k" true 5).2.1,
   (C8_defaultCache_contract DefaultCache.empty "k" true 5).2.2.2.1 rfl,
   (C8_defaultCache_contract DefaultCache.empty "k" true 5).2.2.2.2.1 rfl,
   (C8_defaultCache_contract DefaultCache.empty "k" true 5).2.2.2.2.2.2 "q"⟩

/-- C10: the key builder is not injective on all-string parameter lists:
`["a$$b"]` and `["a", "b"]` are distinct but produce the same key, and after
an `Enforce` on `["a", "b"]` caches a decision, `Enforce` on `["a$$b"]`
returns that decision without invoking the underlying engine. -/
theorem C10_getKey_collision :
    getKey [Param.str "a$$b"] = getKey [Param.str "a", Param.str "b"] ∧
    [Param.str "a$$b"] ≠ [Param.str "a", Param.str "b"] ∧
    (Enforce dcOps testEngine e0 [Param.str "a", Param.str "b"]).err = none ∧
    (Enforce dcOps testEngine
        (Enforce dcOps testEngine e0 [Param.str "a", Param.str "b"]).st
        [Param.str "a$$b"]).res =
      (Enforce dcOps testEngine e0 [Param.str "a", Param.str "b"]).res ∧
    (Enforce dcOps testEngine
        (Enforce dcOps testEngine e0 [Param.str "a", Param.str "b"]).st
        [Param.str "a$$b"]).engineCalls = 0 := by
  refine ⟨by decide, by decide, by decide, by decide, by decide⟩

/-- C3: with caching enabled, a parameter list containing a non-string
parameter is delegated to the underlying engine, whose result is returned
unmodified; the cache store is untouched (same store, no store events). -/
theorem C3_enforce_noncacheable {σ ε : Type} (C : CacheOps σ) (E : Engine ε)
    (e : CachedEnforcer σ ε) (rvals : List Param)
    (hen : e.enableCache ≠ 0) (hns : ∃ p ∈ rvals, p.isStr = false) :
    Enforce C E e rvals =
      ⟨(E.enforce e.eng rvals).1.1, (E.enforce e.eng rvals).1.2,
       { e with eng := (E.enforce e.eng rvals).2 }, 1, []⟩ := by
  have hk : getKey rvals = ("", false) := getKey_not_cacheable rvals hns
  simp [Enforce, hen, hk]

theorem C3_witness :
    e0.enableCache ≠ 0 ∧ (∃ p ∈ [Param.other 7], p.isStr = false) ∧
    Enforce dcOps testEngine e0 [Param.other 7] =
      ⟨(testEngine.enforce e0.eng [Param.other 7]).1.1,
       (testEngine.enforce e0.eng [Param.other 7]).1.2,
       { e0 with eng := (testEngine.enforce e0.eng [Param.other 7]).2 }, 1, []⟩ :=
  ⟨by decide, by decide,
   C3_enforce_noncacheable dcOps testEngine e0 [Param.other 7] (by decide) (by decide)⟩

/-- Test fixture: a stub engine whose `Enforce` always fails. -/
def failEngine : Engine Nat where
  enforce := fun n _ => ((false, some (Err.other 9)), n + 1)
  loadPolicy := fun n => (some (Err.other 9), n + 1)
  removePolicy := fun n _ => ((false, some (Err.other 9)), n + 1)
  removePolicies := fun n _ => ((false, some (Err.other 9)), n + 1)

/-- On the default store, a cache hit returns the stored decision with no
engine invocation and no state change. -/
theorem enforce_default_hit {ε : Type} (E : Engine ε)
    (e : CachedEnforcer DefaultCache ε) (rvals : List Param) (key : String)
    (v : Bool) (hen : e.enableCache ≠ 0) (hk : getKey rvals = (key, true))
    (hv : e.cache key = some v) :
    Enforce dcOps E e rvals =
      ⟨v, none, e, 0, [Event.rlock, Event.getE, Event.runlock]⟩ := by
  simp [Enforce, hen, hk, getCachedResult, dcOps, dcGet, hv]

/-- On the default store, a cache miss with a succeeding engine stores the
fresh result under the key with no error. -/
theorem enforce_default_miss {ε : Type} (E : Engine ε)
    (e : CachedEnforcer DefaultCache ε) (rvals : List Param) (key : String)
    (res : Bool) (eng' : ε) (hen : e.enableCache ≠ 0)
    (hk : getKey rvals = (key, true)) (hm : e.cache key = none)
    (hE : E.enforce e.eng rvals = ((res, none), eng')) :
    Enforce dcOps E e rvals =
      ⟨res, none,
       { e with cache := (dcSet e.cache key res e.expireTime).2, eng := eng' }, 1,
       [Event.rlock, Event.getE, Event.runlock,
        Event.wlock, Event.setE, Event.wunlock]⟩ := by
  simp [Enforce, hen, hk, getCachedResult, setCachedResult, dcOps, dcGet, hm,
    hE, dcSet]

/-- C1: with caching enabled, an all-string request whose first `Enforce`
succeeds is answered on the second identical `Enforce` with the same
decision, no error, and zero invocations of the underlying engine. -/
theorem C1_enforce_second_call_cached {ε : Type} (E : Engine ε)
    (e : CachedEnforcer DefaultCache ε) (rvals : List Param)
    (hen : e.enableCache ≠ 0) (hs : ∀ p ∈ rvals, p.isStr = true)
    (h1 : (Enforce dcOps E e rvals).err = none) :
    (Enforce dcOps E (Enforce dcOps E e rvals).st rvals).res =
      (Enforce dcOps E e rvals).res ∧
    (Enforce dcOps E (Enforce dcOps E e rvals).st rvals).err = none ∧
    (Enforce dcOps E (Enforce dcOps E e rvals).st rvals).engineCalls = 0 := by
  obtain ⟨ss, rfl⟩ := exists_strings_of_all_isStr rvals hs
  have hk := getKey_strings ss
  rcases hv : e.cache (keyOf ss) with - | v
  · rcases hE : E.enforce e.eng (ss.map Param.str) with ⟨⟨res, eerr⟩, eng'⟩
    cases eerr with
    | some ee =>
      exfalso
      have hbad : Enforce dcOps E e (ss.map Param.str) =
          ⟨false, some ee, { e with eng := eng' }, 1,
           [Event.rlock, Event.getE, Event.runlock]⟩ := by
        simp [Enforce, hen, hk, getCachedResult, dcOps, dcGet, hv, hE]
      rw [hbad] at h1
      exact Option.noConfusion h1
    | none =>
      have h1st := enforce_default_miss E e (ss.map Param.str) (keyOf ss) res
        eng' hen hk hv hE
      have h2nd : Enforce dcOps E (Enforce dcOps E e (ss.map Param.str)).st
          (ss.map Param.str) =
          ⟨res, none, (Enforce dcOps E e (ss.map Param.str)).st, 0,
           [Event.rlock, Event.getE, Event.runlock]⟩ := by
        rw [h1st]
        exact enforce_default_hit E _ (ss.map Param.str) (keyOf ss) res hen hk
          (by simp [dcSet])
      rw [h2nd, h1st]
      exact ⟨rfl, rfl, rfl⟩
  · have h1st := enforce_default_hit E e (ss.map Param.str) (keyOf ss) v hen hk hv
    have h2nd : Enforce dcOps E (Enforce dcOps E e (ss.map Param.str)).st
        (ss.map Param.str) =
        ⟨v, none, (Enforce dcOps E e (ss.map Param.str)).st, 0,
         [Event.rlock, Event.getE, Event.runlock]⟩ := by
      rw [h1st]
      exact enforce_default_hit E e (ss.map Param.str) (keyOf ss) v hen hk hv
    rw [h2nd, h1st]
    exact ⟨rfl, rfl, rfl⟩

theorem C1_witness :
    e0.enableCache ≠ 0 ∧
    (∀ p ∈ [Param.str "alice", Param.str "data1", Param.str "read"],
      p.isStr = true) ∧
    (Enforce dcOps testEngine e0
      [Param.str "alice", Param.str "data1", Param.str "read"]).err = none ∧
    ((Enforce dcOps testEngine
        (Enforce dcOps testEngine e0
          [Param.str "alice", Param.str "data1", Param.str "read"]).st
        [Param.str "alice", Param.str "data1", Param.str "read"]).res =
      (Enforce dcOps testEngine e0
        [Param.str "alice", Param.str "data1", Param.str "read"]).res ∧
     (Enforce dcOps testEngine
        (Enforce dcOps testEngine e0
          [Param.str "alice", Param.str "data1", Param.str "read"]).st
        [Param.str "alice", Param.str "data1", Param.str "read"]).err = none ∧
     (Enforce dcOps testEngine
        (Enforce dcOps testEngine e0
          [Param.str "alice", Param.str "data1", Param.str "read"]).st
        [Param.str "alice", Param.str "data1", Param.str "read"]).engineCalls = 0) :=
  ⟨by decide, by decide, by decide,
   C1_enforce_second_call_cached testEngine e0
     [Param.str "alice", Param.str "data1", Param.str "read"]
     (by decide) (by decide) (by decide)⟩

/-- C5: with caching enabled and a cacheable parameter list, `RemovePolicy`
deletes the derived key first; a `NotFound` from `Delete` (or success) lets
the underlying removal proceed on the post-delete store, while any other
`Delete` error is returned as `(false, err)` without invoking the
underlying removal. -/
theorem C5_removePolicy_delete_first {σ ε : Type} (C : CacheOps σ)
    (E : Engine ε) (e : CachedEnforcer σ ε) (params : List Param)
    (key : String) (hen : e.enableCache ≠ 0)
    (hk : getKey params = (key, true)) :
    ((C.del e.cache key).1 = none ∨ (C.del e.cache key).1 = some Err.noSuchKey →
       RemovePolicy C E e params =
         ⟨(E.removePolicy e.eng params).1.1, (E.removePolicy e.eng params).1.2,
          { e with cache := (C.del e.cache key).2,
                   eng := (E.removePolicy e.eng params).2 },
          1, [Event.delE]⟩) ∧
    (∀ er, (C.del e.cache key).1 = some er → er ≠ Err.noSuchKey →
       RemovePolicy C E e params =
         ⟨false, some er, { e with cache := (C.del e.cache key).2 }, 0,
          [Event.delE]⟩) := by
  rcases hd : C.del e.cache key with ⟨derr, cache'⟩
  constructor
  · rintro (h | h) <;> simp at h <;> subst h <;>
      simp [RemovePolicy, hen, hk, hd]
  · intro er h hne
    simp at h
    subst h
    simp [RemovePolicy, hen, hk, hd, hne]

theorem C5_witness :
    e0.enableCache ≠ 0 ∧ getKey [Param.str "p"] = ("p$$", true) ∧
    (dcOps.del e0.cache "p$$").1 = some Err.noSuchKey ∧
    RemovePolicy dcOps testEngine e0 [Param.str "p"] =
      ⟨(testEngine.removePolicy e0.eng [Param.str "p"]).1.1,
       (testEngine.removePolicy e0.eng [Param.str "p"]).1.2,
       { e0 with cache := (dcOps.del e0.cache "p$$").2,
                 eng := (testEngine.removePolicy e0.eng [Param.str "p"]).2 },
       1, [Event.delE]⟩ ∧
    (failOps.del eU.cache "p$$").1 = some (Err.other 3) ∧
    Err.other 3 ≠ Err.noSuchKey ∧
    RemovePolicy failOps testEngine eU [Param.str "p"] =
      ⟨false, some (Err.other 3), { eU with cache := (failOps.del eU.cache "p$$").2 },
       0, [Event.delE]⟩ :=
  ⟨by decide, by decide, by decide,
   (C5_removePolicy_delete_first dcOps testEngine e0 [Param.str "p"] "p$$"
     (by decide) (by decide)).1 (Or.inr (by decide)),
   rfl, by decide,
   (C5_removePolicy_delete_first failOps testEngine eU [Param.str "p"] "p$$"
     (by decide) (by decide)).2 (Err.other 3) rfl (by decide)⟩

/-- C6: on a cache miss (`Get` returned `NotFound`) with caching enabled and
a cacheable key: an engine failure is propagated as `(false, err)` with the
store untouched; an engine success is stored via `Set` with the configured
expire time, the decision is returned, and any `Set` error becomes the
call's error. -/
theorem C6_enforce_miss_paths {σ ε : Type} (C : CacheOps σ) (E : Engine ε)
    (e : CachedEnforcer σ ε) (rvals : List Param) (key : String) (b : Bool)
    (hen : e.enableCache ≠ 0) (hk : getKey rvals = (key, true))
    (hmiss : C.get e.cache key = (b, some Err.noSuchKey)) :
    (∀ res er eng', E.enforce e.eng rvals = ((res, some er), eng') →
       Enforce C E e rvals =
         ⟨false, some er, { e with eng := eng' }, 1,
          [Event.rlock, Event.getE, Event.runlock]⟩) ∧
    (∀ res eng', E.enforce e.eng rvals = ((res, none), eng') →
       Enforce C E e rvals =
         ⟨res, (C.set e.cache key res e.expireTime).1,
          { e with cache := (C.set e.cache key res e.expireTime).2, eng := eng' },
          1, [Event.rlock, Event.getE, Event.runlock,
              Event.wlock, Event.setE, Event.wunlock]⟩) := by
  constructor
  · intro res er eng' hE
    simp [Enforce, hen, hk, getCachedResult, hmiss, hE]
  · intro res eng' hE
    simp [Enforce, hen, hk, getCachedResult, setCachedResult, hmiss, hE]

theorem C6_witness :
    e0.enableCache ≠ 0 ∧ getKey [Param.str "p"] = ("p$$", true) ∧
    dcOps.get e0.cache "p$$" = (false, some Err.noSuchKey) ∧
    failEngine.enforce e0.eng [Param.str "p"] = ((false, some (Err.other 9)), 1) ∧
    Enforce dcOps failEngine e0 [Param.str "p"] =
      ⟨false, some (Err.other 9), { e0 with eng := 1 }, 1,
       [Event.rlock, Event.getE, Event.runlock]⟩ ∧
    testEngine.enforce e0.eng [Param.str "p"] = ((true, none), 1) ∧
    Enforce dcOps testEngine e0 [Param.str "p"] =
      ⟨true, (dcOps.set e0.cache "p$$" true e0.expireTime).1,
       { e0 with cache := (dcOps.set e0.cache "p$$" true e0.expireTime).2,
                 eng := 1 },
       1, [Event.rlock, Event.getE, Event.runlock,
           Event.wlock, Event.setE, Event.wunlock]⟩ :=
  ⟨by decide, by decide, by decide, rfl,
   (C6_enforce_miss_paths dcOps failEngine e0 [Param.str "p"] "p$$" false
     (by decide) (by decide) (by decide)).1 false (Err.other 9) 1 rfl,
   rfl,
   (C6_enforce_miss_paths dcOps testEngine e0 [Param.str "p"] "p$$" false
     (by decide) (by decide) (by decide)).2 true 1 rfl⟩

/-- C4: with caching enabled, `LoadPolicy` clears the store before the
underlying reload: a `Clear` failure is propagated with the reload not
invoked; a `Clear` success delegates to the reload on the cleared store;
and on the default store every previously cached key is absent afterwards. -/
theorem C4_loadPolicy_clear_first {ε : Type} (E : Engine ε) :
    (∀ (σ : Type) (C : CacheOps σ) (e : CachedEnforcer σ ε) (er : Err),
       e.enableCache ≠ 0 → (C.clr e.cache).1 = some er →
       LoadPolicy C E e =
         ⟨some er, { e with cache := (C.clr e.cache).2 }, 0, [Event.clrE]⟩) ∧
    (∀ (σ : Type) (C : CacheOps σ) (e : CachedEnforcer σ ε),
       e.enableCache ≠ 0 → (C.clr e.cache).1 = none →
       LoadPolicy C E e =
         ⟨(E.loadPolicy e.eng).1,
          { e with cache := (C.clr e.cache).2, eng := (E.loadPolicy e.eng).2 },
          1, [Event.clrE]⟩) ∧
    (∀ (e : CachedEnforcer DefaultCache ε), e.enableCache ≠ 0 →
       ∀ k, (LoadPolicy dcOps E e).st.cache k = none) := by
  refine ⟨?_, ?_, ?_⟩
  · intro σ C e er hen h
    rcases hc : C.clr e.cache with ⟨cerr, cache'⟩
    rw [hc] at h
    simp at h
    subst h
    simp [LoadPolicy, hen, hc]
  · intro σ C e hen h
    rcases hc : C.clr e.cache with ⟨cerr, cache'⟩
    rw [hc] at h
    simp at h
    subst h
    simp [LoadPolicy, hen, hc]
  · intro e hen k
    simp [LoadPolicy, hen, dcOps, dcClear]

theorem C4_witness :
    eU.enableCache ≠ 0 ∧ (failOps.clr eU.cache).1 = some (Err.other 4) ∧
    LoadPolicy failOps testEngine eU =
      ⟨some (Err.other 4), { eU with cache := (failOps.clr eU.cache).2 }, 0,
       [Event.clrE]⟩ ∧
    e0.enableCache ≠ 0 ∧
    (LoadPolicy dcOps testEngine e0).st.cache "z$$" = none :=
  ⟨by decide, rfl,
   (C4_loadPolicy_clear_first testEngine).1 Unit failOps eU (Err.other 4)
     (by decide) rfl,
   by decide,
   (C4_loadPolicy_clear_first testEngine).2.2 e0 (by decide) "z$$"⟩

/-- Test fixture: default store holding exactly the key derived from the
single-parameter rule `["c"]`. -/
def cacheC : DefaultCache := (dcSet DefaultCache.empty "c$$" true 0).2

/-- Test fixture: cache-enabled enforcer over `cacheC`. -/
def e2 : CachedEnforcer DefaultCache Nat := ⟨0, cacheC, 1, 0⟩

/-- C2 counterexample: for `rules = [["a","b"], ["c"]]` the reused `irule`
buffer keeps `"b"` from the first rule, so the second iteration deletes the
key `"c$$b$$"` instead of `"c$$"`: `RemovePolicies` completes without error,
yet the cache key derived from `["c"]` (namely `"c$$"`) is still present. -/
theorem C2_counterexample :
    keyOf ["c"] = "c$$" ∧
    (RemovePolicies dcOps testEngine e2 [["a", "b"], ["c"]]).map
        (fun o => (o.err, o.st.cache "c$$")) = some (none, some true) := by
  exact ⟨rfl, by decide⟩

theorem overwrite_full (rule : List String) :
    ∀ irule : List Param, rule.length = irule.length →
      overwrite irule rule = some (rule.map Param.str) := by
  induction rule with
  | nil =>
    intro irule h
    cases irule with
    | nil => rfl
    | cons q irest => simp at h
  | cons p prest ih =>
    intro irule h
    cases irule with
    | nil => simp at h
    | cons q irest =>
      simp only [List.length_cons, Nat.succ.injEq] at h
      simp [overwrite, ih irest h]

theorem dcDelete_self (c : DefaultCache) (k : String) :
    (dcDelete c k).2 k = none := by
  unfold dcDelete
  rcases hc : c k with - | v <;> simp [hc]

theorem dcDelete_preserve_none (c : DefaultCache) (k k' : String)
    (h : c k = none) : (dcDelete c k').2 k = none := by
  unfold dcDelete
  rcases hc : c k' with - | v
  · exact h
  · simp [h]

theorem dcDelete_err (c : DefaultCache) (k : String) :
    (dcDelete c k).1 = none ∨ (dcDelete c k).1 = some Err.noSuchKey := by
  unfold dcDelete
  rcases hc : c k with - | v
  · exact Or.inr rfl
  · exact Or.inl rfl

/-- On the default store, when every rule has the length of the shared
`irule` buffer, the purge loop of `RemovePolicies` completes normally and
every rule's derived key is absent afterwards; keys already absent stay
absent. -/
theorem removePoliciesLoop_default (rules : List (List String)) :
    ∀ (irule : List Param) (cache : DefaultCache),
      (∀ r ∈ rules, r.length = irule.length) →
      ∃ ir cf tr,
        removePoliciesLoop dcOps rules irule cache = .done ir cf tr ∧
        (∀ r ∈ rules, cf (keyOf r) = none) ∧
        (∀ k, cache k = none → cf k = none) := by
  induction rules with
  | nil =>
    intro irule cache _
    exact ⟨irule, cache, [], rfl, by simp, fun k h => h⟩
  | cons rule rest ih =>
    intro irule cache hlen
    have hov : overwrite irule rule = some (rule.map Param.str) :=
      overwrite_full rule irule (hlen rule (List.mem_cons_self rule rest))
    have hkey := getKey_strings rule
    obtain ⟨ir, cf, tr, hrec, hall, hpres⟩ :=
      ih (rule.map Param.str) (dcDelete cache (keyOf rule)).2
        (fun r hr => by
          rw [List.length_map]
          exact (hlen r (List.mem_cons_of_mem rule hr)).trans
            (hlen rule (List.mem_cons_self rule rest)).symm)
    have hstep : removePoliciesLoop dcOps (rule :: rest) irule cache =
        (removePoliciesLoop dcOps rest (rule.map Param.str)
          (dcDelete cache (keyOf rule)).2).addDel := by
      rcases hd : dcDelete cache (keyOf rule) with ⟨derr, cache'⟩
      rcases dcDelete_err cache (keyOf rule) with h | h <;> rw [hd] at h <;>
        simp at h <;> subst h <;>
        simp [removePoliciesLoop, hov, hkey, dcOps, hd]
    refine ⟨ir, cf, Event.delE :: tr, ?_, ?_, ?_⟩
    · rw [hstep, hrec]
      rfl
    · intro r hr
      rcases List.mem_cons.mp hr with h1 | h2
      · subst h1
        exact hpres (keyOf r) (dcDelete_self cache (keyOf r))
      · exact hall r h2
    · intro k hk
      exact hpres k (dcDelete_preserve_none cache k (keyOf rule) hk)

/-- C2 (amended): with caching enabled and the default store, for every
non-empty rule list in which every rule has the same length as the first,
`RemovePolicies` deletes the key derived from each rule before delegating
to the underlying engine, so afterwards each of those keys is absent. -/
theorem C2_amended_removePolicies {ε : Type} (E : Engine ε)
    (e : CachedEnforcer DefaultCache ε) (rules : List (List String))
    (hen : e.enableCache ≠ 0) (hne : rules ≠ [])
    (hlen : ∀ r ∈ rules, r.length = (rules.headD []).length) :
    ∃ o, RemovePolicies dcOps E e rules = some o ∧ o.engineCalls = 1 ∧
      ∀ r ∈ rules, o.st.cache (keyOf r) = none := by
  have hlen' : ∀ r ∈ rules, r.length =
      (List.replicate (rules.headD []).length (Param.other 0)).length := by
    intro r hr
    rw [List.length_replicate]
    exact hlen r hr
  obtain ⟨ir, cf, tr, hloop, hall, -⟩ :=
    removePoliciesLoop_default rules
      (List.replicate (rules.headD []).length (Param.other 0)) e.cache hlen'
  have hc : rules.length ≠ 0 ∧ e.enableCache ≠ 0 := ⟨by simpa using hne, hen⟩
  refine ⟨⟨(E.removePolicies e.eng rules).1.1, (E.removePolicies e.eng rules).1.2,
    ⟨e.expireTime, cf, e.enableCache, (E.removePolicies e.eng rules).2⟩, 1, tr⟩,
    ?_, rfl, ?_⟩
  · unfold RemovePolicies
    rw [if_pos hc]
    simp only [hloop]
  · intro r hr
    exact hall r hr

theorem C2_witness :
    e2.enableCache ≠ 0 ∧ ([["a", "b"], ["x", "y"]] : List (List String)) ≠ [] ∧
    (∀ r ∈ ([["a", "b"], ["x", "y"]] : List (List String)),
      r.length = (([["a", "b"], ["x", "y"]] : List (List String)).headD []).length) ∧
    (∃ o, RemovePolicies dcOps testEngine e2 [["a", "b"], ["x", "y"]] = some o ∧
      o.engineCalls = 1 ∧
      ∀ r ∈ ([["a", "b"], ["x", "y"]] : List (List String)),
        o.st.cache (keyOf r) = none) :=
  ⟨by decide, by decide, by decide,
   C2_amended_removePolicies testEngine e2 [["a", "b"], ["x", "y"]]
     (by decide) (by decide) (by decide)⟩

/-- Checks a lock/store event trace starting from `r` read locks and `w`
write locks held: every `Get` must happen with the shared lock held and
every `Set` / `Delete` / `Clear` with the exclusive lock held. -/
def locksOk : Nat → Nat → List Event → Bool
  | _, _, [] => true
  | r, w, Event.rlock :: t => locksOk (r + 1) w t
  | r, w, Event.runlock :: t => locksOk (r - 1) w t
  | r, w, Event.wlock :: t => locksOk r (w + 1) t
  | r, w, Event.wunlock :: t => locksOk r (w - 1) t
  | r, w, Event.getE :: t => decide (0 < r) && locksOk r w t
  | r, w, Event.setE :: t => decide (0 < w) && locksOk r w t
  | r, w, Event.delE :: t => decide (0 < w) && locksOk r w t
  | r, w, Event.clrE :: t => decide (0 < w) && locksOk r w t

/-- C9 counterexample: `LoadPolicy` performs its cache `Clear` without
taking the concurrency guard at all, so the claimed write-lock discipline
fails on it. -/
theorem C9_counterexample :
    (LoadPolicy dcOps testEngine e0).trace = [Event.clrE] ∧
    locksOk 0 0 [Event.clrE] = false := by
  exact ⟨by decide, by decide⟩

/-- The event trace of `Enforce` is one of three shapes. -/
theorem enforce_trace_cases {σ ε : Type} (C : CacheOps σ) (E : Engine ε)
    (e : CachedEnforcer σ ε) (rvals : List Param) :
    (Enforce C E e rvals).trace = [] ∨
    (Enforce C E e rvals).trace = [Event.rlock, Event.getE, Event.runlock] ∨
    (Enforce C E e rvals).trace =
      [Event.rlock, Event.getE, Event.runlock,
       Event.wlock, Event.setE, Event.wunlock] := by
  unfold Enforce
  split
  · exact Or.inl rfl
  · rcases hk : getKey rvals with ⟨key, ok⟩
    cases ok
    · exact Or.inl rfl
    · simp only [getCachedResult, setCachedResult]
      rcases hg : C.get e.cache key with ⟨gres, gerr⟩
      cases gerr with
      | none => exact Or.inr (Or.inl rfl)
      | some ge =>
        by_cases hge : ge = Err.noSuchKey
        · subst hge
          simp only [ne_eq, not_true_eq_false, if_false]
          rcases hE : E.enforce e.eng rvals with ⟨⟨res, eerr⟩, eng'⟩
          cases eerr with
          | some ee => simp [hE]
          | none => simp [hE]
        · simp [hge]

/-- Non-panicking runs of the `RemovePolicies` purge loop on a non-empty
rule list have a trace beginning with an unguarded `Delete` event. -/
theorem removePoliciesLoop_trace_head {σ : Type} (C : CacheOps σ)
    (rule : List String) (rest : List (List String)) (irule : List Param)
    (cache : σ) :
    removePoliciesLoop C (rule :: rest) irule cache = .panic ∨
    (∃ er cf t, removePoliciesLoop C (rule :: rest) irule cache =
        .earlyErr er cf (Event.delE :: t)) ∨
    (∃ ir cf t, removePoliciesLoop C (rule :: rest) irule cache =
        .done ir cf (Event.delE :: t)) := by
  unfold removePoliciesLoop
  rcases ho : overwrite irule rule with - | irule'
  · simp [ho]
  · simp only [ho]
    rcases hk : getKey irule' with ⟨key, ok⟩
    simp only [hk]
    rcases hd : C.del cache key with ⟨derr, cache'⟩
    simp only [hd]
    have haux : ∀ res : LoopRes σ, res.addDel = .panic ∨
        (∃ er cf t, res.addDel = .earlyErr er cf (Event.delE :: t)) ∨
        (∃ ir cf t, res.addDel = .done ir cf (Event.delE :: t)) := by
      intro res
      cases res with
      | panic => exact Or.inl rfl
      | earlyErr er cf t => exact Or.inr (Or.inl ⟨er, cf, t, rfl⟩)
      | done ir cf t => exact Or.inr (Or.inr ⟨ir, cf, t, rfl⟩)
    cases derr with
    | none => exact haux _
    | some de =>
      by_cases hde : de = Err.noSuchKey
      · subst hde
        simp only [ne_eq, not_true_eq_false, if_false]
        exact haux _
      · simp only [ne_eq, hde, not_false_eq_true, if_true]
        exact Or.inr (Or.inl ⟨de, cache', [], rfl⟩)

/-- C9 (amended): the `Get` of `Enforce` runs under the shared lock and its
`Set` under the exclusive lock, and `InvalidateCache` clears under the
exclusive lock; but the `Clear` performed by `LoadPolicy` and the `Delete`s
performed by `RemovePolicy` and `RemovePolicies` run without taking the
guard at all. -/
theorem C9_amended_lock_usage {σ ε : Type} (C : CacheOps σ) (E : Engine ε)
    (e : CachedEnforcer σ ε) (rvals : List Param) (rules : List (List String))
    (o : MutOut σ ε) :
    locksOk 0 0 (Enforce C E e rvals).trace = true ∧
    locksOk 0 0 (InvalidateCache C e).2 = true ∧
    (e.enableCache ≠ 0 → locksOk 0 0 (LoadPolicy C E e).trace = false) ∧
    (e.enableCache ≠ 0 → (getKey rvals).2 = true →
       locksOk 0 0 (RemovePolicy C E e rvals).trace = false) ∧
    (e.enableCache ≠ 0 → rules ≠ [] → RemovePolicies C E e rules = some o →
       locksOk 0 0 o.trace = false) := by
  refine ⟨?_, ?_, ?_, ?_, ?_⟩
  · rcases enforce_trace_cases C E e rvals with h | h | h <;> rw [h] <;> rfl
  · rfl
  · intro hen
    rcases hc : C.clr e.cache with ⟨cerr, cache'⟩
    have ht : (LoadPolicy C E e).trace = [Event.clrE] := by
      cases cerr <;> simp [LoadPolicy, hen, hc]
    rw [ht]
    rfl
  · intro hen hg
    rcases hk : getKey rvals with ⟨key, ok⟩
    rw [hk] at hg
    simp at hg
    subst hg
    rcases hd : C.del e.cache key with ⟨derr, cache'⟩
    have ht : (RemovePolicy C E e rvals).trace = [Event.delE] := by
      cases derr with
      | none => simp [RemovePolicy, hen, hk, hd]
      | some de =>
        by_cases hde : de = Err.noSuchKey
        · subst hde
          simp [RemovePolicy, hen, hk, hd]
        · simp [RemovePolicy, hen, hk, hd, hde]
    rw [ht]
    rfl
  · intro hen hne ho
    rcases rules with - | ⟨rule, rest⟩
    · exact absurd rfl hne
    have hc : ((rule :: rest) : List (List String)).length ≠ 0 ∧
        e.enableCache ≠ 0 := ⟨by simp, hen⟩
    unfold RemovePolicies at ho
    rw [if_pos hc] at ho
    rcases removePoliciesLoop_trace_head C rule rest
        (List.replicate (((rule :: rest) : List (List String)).headD []).length
          (Param.other 0)) e.cache with h | ⟨er, cf, t, h⟩ | ⟨ir, cf, t, h⟩ <;>
      simp only [h] at ho
    · exact Option.noConfusion ho
    · rw [← Option.some.inj ho]
      rfl
    · rcases hE : E.removePolicies e.eng (rule :: rest) with ⟨⟨res, err⟩, eng'⟩
      simp only [hE] at ho
      rw [← Option.some.inj ho]
      rfl

theorem C9_witness :
    locksOk 0 0 (Enforce dcOps testEngine e0 [Param.str "x"]).trace = true ∧
    locksOk 0 0 (InvalidateCache dcOps e0).2 = true ∧
    e0.enableCache ≠ 0 ∧
    locksOk 0 0 (LoadPolicy dcOps testEngine e0).trace = false ∧
    (getKey [Param.str "x"]).2 = true ∧
    locksOk 0 0 (RemovePolicy dcOps testEngine e0 [Param.str "x"]).trace = false ∧
    ([["a"]] : List (List String)) ≠ [] ∧
    RemovePolicies dcOps testEngine e0 [["a"]] =
      some ⟨true, none, ⟨0, DefaultCache.empty, 1, 1⟩, 1, [Event.delE]⟩ ∧
    locksOk 0 0
      (MutOut.trace ⟨true, none, ⟨0, DefaultCache.empty, 1, 1⟩, 1, [Event.delE]⟩) =
      false :=
  ⟨(C9_amended_lock_usage dcOps testEngine e0 [Param.str "x"] [["a"]]
      ⟨true, none, ⟨0, DefaultCache.empty, 1, 1⟩, 1, [Event.delE]⟩).1,
   (C9_amended_lock_usage dcOps testEngine e0 [Param.str "x"] [["a"]]
      ⟨true, none, ⟨0, DefaultCache.empty, 1, 1⟩, 1, [Event.delE]⟩).2.1,
   by decide,
   (C9_amended_lock_usage dcOps testEngine e0 [Param.str "x"] [["a"]]
      ⟨true, none, ⟨0, DefaultCache.empty, 1, 1⟩, 1, [Event.delE]⟩).2.2.1
     (by decide),
   by decide,
   (C9_amended_lock_usage dcOps testEngine e0 [Param.str "x"] [["a"]]
      ⟨true, none, ⟨0, DefaultCache.empty, 1, 1⟩, 1, [Event.delE]⟩).2.2.2.1
     (by decide) (by decide),
   by decide, rfl,
   (C9_amended_lock_usage dcOps testEngine e0 [Param.str "x"] [["a"]]
      ⟨true, none, ⟨0, DefaultCache.empty, 1, 1⟩, 1, [Event.delE]⟩).2.2.2.2
     (by decide) (by decide) rfl⟩

end CasbinCache
